import Mathlib

/-!
Verification development for `new_obj_allocation`

Shallow embedding of

* `lib/optimized/vmath.h` : the 256-bit vector add / subtract / divide wrappers,
* `src/hset_test.cc`      : the three allocator adaptors (`metrics_allocator`,
  `malloc_allocator`, `slab_allocator`), the benchmark worker `test_hset`
  and the size / key-index computations of `main`.

Conventions.

* A `__m256i` register is the natural number below `2 ^ 256` whose binary
  digits are the register bits; lane `i` of width `w` is the digit block
  `[w * i, w * (i + 1))`.
* A template type parameter `T` is represented by `sizeof(T)` in bytes.
* Pointers are their 64-bit addresses, `0` is `NULL`.
* `uint32_t` / `uint64_t` / `size_t` arithmetic is reduced `% 2 ^ 32` resp.
  `% 2 ^ 64` wherever the source operation can wrap.
-/

set_option linter.unusedVariables false

namespace vmath

/-! ## 256-bit registers and the AVX2 intrinsics used by `vmath.h` -/

/-- Lane `i` of width `w` bits of the register value `v`. -/
def lane (w i v : Nat) : Nat := v / 2 ^ (w * i) % 2 ^ w

/-- Little-endian packing of `w`-bit lanes into one register value; each
element is truncated to `w` bits. -/
def pack (w : Nat) : List Nat → Nat
  | [] => 0
  | x :: xs => x % 2 ^ w + 2 ^ w * pack w xs

/-- The first `k` lanes of width `w` of `v`, lowest lane first. -/
def lanes (w k v : Nat) : List Nat := (List.range k).map (fun i => lane w i v)

/-- Intrinsic `_mm256_add_epi64`: four independent 64-bit additions. -/
def _mm256_add_epi64 (a b : Nat) : Nat :=
  pack 64 ((List.range 4).map (fun i => (lane 64 i a + lane 64 i b) % 2 ^ 64))

/-- Intrinsic `_mm256_add_epi32`: eight independent 32-bit additions. -/
def _mm256_add_epi32 (a b : Nat) : Nat :=
  pack 32 ((List.range 8).map (fun i => (lane 32 i a + lane 32 i b) % 2 ^ 32))

/-- Intrinsic `_mm256_sub_epi64`: four independent 64-bit subtractions. -/
def _mm256_sub_epi64 (a b : Nat) : Nat :=
  pack 64 ((List.range 4).map (fun i => (lane 64 i a + 2 ^ 64 - lane 64 i b) % 2 ^ 64))

/-- Intrinsic `_mm256_sub_epi32`: eight independent 32-bit subtractions. -/
def _mm256_sub_epi32 (a b : Nat) : Nat :=
  pack 32 ((List.range 8).map (fun i => (lane 32 i a + 2 ^ 32 - lane 32 i b) % 2 ^ 32))

/-- Intrinsic `_mm256_set1_epi64x`: the 64-bit pattern of `a` in each of the
four 64-bit elements. -/
def _mm256_set1_epi64x (a : Nat) : Nat := pack 64 [a, a, a, a]

/-! ## `vmath.h` -/

/-- Source `vmath::vsub<T>(l, r)`; `sizeofT` is `sizeof(T)`. -/
def vsub (sizeofT : Nat) (l r : Nat) : Nat :=
  if sizeofT = 8 then _mm256_sub_epi64 l r else _mm256_sub_epi32 l r

/-- Source `vmath::vsub_c<T>(l, r)`; the constant `r` of the unsigned type
`T` is converted to the `long long` argument of `_mm256_set1_epi64x`, which
keeps its value. -/
def vsub_c (sizeofT : Nat) (l r : Nat) : Nat :=
  vsub sizeofT l (_mm256_set1_epi64x r)

/-- Source `vmath::vadd<T>(l, r)`. -/
def vadd (sizeofT : Nat) (l r : Nat) : Nat :=
  if sizeofT = 8 then _mm256_add_epi64 l r else _mm256_add_epi32 l r

/-- Source `vmath::vadd_c<T>(l, r)`. -/
def vadd_c (sizeofT : Nat) (l r : Nat) : Nat :=
  vadd sizeofT l (_mm256_set1_epi64x r)

/-- Modelled from the spec: `do_div_vector<T, denum>` of `optimized/division.h`,
which is not among the sources. The spec gives its contract as
`VecArith::divide(v, k) == v / k` (native truncating division) in every lane
of the `sizeof(T)`-wide lane group of the register. -/
def do_div_vector (sizeofT denum : Nat) (n : Nat) : Nat :=
  pack (8 * sizeofT)
    ((List.range (32 / sizeofT)).map (fun i => lane (8 * sizeofT) i n / denum))

/-- Source `vmath::vdiv<T, denum>(n)`. -/
def vdiv (sizeofT denum : Nat) (n : Nat) : Nat :=
  do_div_vector sizeofT denum n

end vmath

namespace hset_test

/-! ## The allocator adaptors of `hset_test.cc` -/

/-- Source constant `msize`. -/
def msize : Nat := 256

/-- Calls made by an allocator adaptor to code outside `hset_test.cc`, in
program order. -/
inductive Call where
  | get_cycles
  | _allocate
  | _free (p : Nat)
  | malloc (bytes : Nat)
  | free (p : Nat)
  deriving DecidableEq, Repr

/-- The collaborators that `hset_test.cc` only calls: the slab manager behind
`my_allocator` (state `M`), the C heap (state `H`) and the cycle counter.
`m` is `(uint64_t)(my_allocator->m)` and `m + sizeof_root` is
`(uint64_t)(my_allocator->m + 1)`, the one-past-the-end address of the root
storage (which does not wrap for an object that exists). -/
structure Env (M H : Type) where
  _allocate : M → Nat × M
  _free : Nat → M → M
  malloc : Nat → H → Nat × H
  free : Nat → H → H
  cycles : Nat → Nat
  m : Nat
  sizeof_root : Nat

/-- Program state seen by the adaptors: the manager, the heap, the
thread-local counters `alloc_time` and `free_time`, the global `bucket_list`,
the number of cycle-counter reads so far, and the calls made so far. -/
structure World (M H : Type) where
  manager : M
  heap : H
  alloc_time : Nat
  free_time : Nat
  bucket_list : List Nat
  nreads : Nat
  trace : List Call

variable {M H : Type}

/-- Call of `timers::get_cycles()`. -/
def get_cycles (E : Env M H) (w : World M H) : Nat × World M H :=
  (E.cycles w.nreads % 2 ^ 64,
   { w with nreads := w.nreads + 1, trace := w.trace ++ [Call.get_cycles] })

/-- Call of `my_allocator->_allocate()`. -/
def call_allocate (E : Env M H) (w : World M H) : Nat × World M H :=
  ((E._allocate w.manager).1,
   { w with manager := (E._allocate w.manager).2, trace := w.trace ++ [Call._allocate] })

/-- Call of `my_allocator->_free(p)`. -/
def call_free_slab (E : Env M H) (p : Nat) (w : World M H) : World M H :=
  { w with manager := E._free p w.manager, trace := w.trace ++ [Call._free p] }

/-- Call of `malloc(bytes)`. -/
def call_malloc (E : Env M H) (bytes : Nat) (w : World M H) : Nat × World M H :=
  ((E.malloc bytes w.heap).1,
   { w with heap := (E.malloc bytes w.heap).2, trace := w.trace ++ [Call.malloc bytes] })

/-- Call of `free(p)`. -/
def call_free (E : Env M H) (p : Nat) (w : World M H) : World M H :=
  { w with heap := E.free p w.heap, trace := w.trace ++ [Call.free p] }

/-- Statement `alloc_time += (timers::get_cycles() - start)`. -/
def add_alloc_time (E : Env M H) (start : Nat) (w : World M H) : World M H :=
  let r := get_cycles E w
  { r.2 with alloc_time := (r.2.alloc_time + (r.1 + 2 ^ 64 - start) % 2 ^ 64) % 2 ^ 64 }

/-- Statement `free_time += (timers::get_cycles() - start)`. -/
def add_free_time (E : Env M H) (start : Nat) (w : World M H) : World M H :=
  let r := get_cycles E w
  { r.2 with free_time := (r.2.free_time + (r.1 + 2 ^ 64 - start) % 2 ^ 64) % 2 ^ 64 }

/-- Source `metrics_allocator<T>::allocate(n)`. -/
def metrics_allocator.allocate (E : Env M H) (sizeofT : Nat) (n : Nat)
    (w : World M H) : Nat × World M H :=
  let w1 : World M H :=
    if n < msize then
      { w with bucket_list := w.bucket_list.set n ((w.bucket_list.getD n 0 + 1) % 2 ^ 32) }
    else w
  call_malloc E (n * 8 % 2 ^ 64) w1

/-- Source `metrics_allocator<T>::deallocate(p, n)`. -/
def metrics_allocator.deallocate (E : Env M H) (sizeofT : Nat) (p n : Nat)
    (w : World M H) : World M H :=
  call_free E p w

/-- Source `malloc_allocator<T>::allocate(n)`. -/
def malloc_allocator.allocate (E : Env M H) (sizeofT : Nat) (n : Nat)
    (w : World M H) : Nat × World M H :=
  let s := get_cycles E w
  let r := call_malloc E (n * 8 % 2 ^ 64) s.2
  (r.1, add_alloc_time E s.1 r.2)

/-- Source `malloc_allocator<T>::deallocate(p, n)`. -/
def malloc_allocator.deallocate (E : Env M H) (sizeofT : Nat) (p n : Nat)
    (w : World M H) : World M H :=
  let s := get_cycles E w
  add_free_time E s.1 (call_free E p s.2)

/-- Lines 125-127 of `slab_allocator<T>::allocate`: the `malloc` branch that is
reached when `n != 1` or when `_allocate` returned `NULL`. -/
def slab_allocator.allocate_malloc (E : Env M H) (n start : Nat)
    (w : World M H) : Nat × World M H :=
  let r := call_malloc E (n * 8 % 2 ^ 64) w
  (r.1, add_alloc_time E start r.2)

/-- Source `slab_allocator<T>::allocate(n)`. -/
def slab_allocator.allocate (E : Env M H) (sizeofT : Nat) (n : Nat)
    (w : World M H) : Nat × World M H :=
  let s := get_cycles E w
  if n = 1 then
    let a := call_allocate E s.2
    if a.1 ≠ 0 then
      (a.1, add_alloc_time E s.1 a.2)
    else
      slab_allocator.allocate_malloc E n s.1 a.2
  else
    slab_allocator.allocate_malloc E n s.1 s.2

/-- Source `slab_allocator<T>::deallocate(p, n)`. -/
def slab_allocator.deallocate (E : Env M H) (sizeofT : Nat) (p n : Nat)
    (w : World M H) : World M H :=
  let s := get_cycles E w
  let w1 :=
    if p > E.m ∧ p < E.m + E.sizeof_root then
      call_free_slab E p s.2
    else
      call_free E p s.2
  add_free_time E s.1 w1

/-- The calls made between the states `before` and `after`. -/
def calls_made (before after : World M H) : List Call :=
  after.trace.drop before.trace.length

/-- A concrete environment for instantiating the statements below: the root
storage occupies the 64 bytes from address 4096, the manager state is its
list of free slots, the heap is a bump pointer. -/
def sampleEnv : Env (List Nat) Nat where
  _allocate := fun s => (s.headD 0, s.tail)
  _free := fun p s => p :: s
  malloc := fun bytes h => (h, h + bytes)
  free := fun _ h => h
  cycles := fun k => 100 * k
  m := 4096
  sizeof_root := 64

/-- A concrete initial state over `sampleEnv` with the given free slots. -/
def sampleWorld (slots : List Nat) : World (List Nat) Nat where
  manager := slots
  heap := 65536
  alloc_time := 0
  free_time := 0
  bucket_list := List.replicate 256 0
  nreads := 0
  trace := []

/-! ## The benchmark worker and the sizes computed by `main` -/

/-- A non-negative `float` option value, written as the fraction `num / den`
(`den > 0`). Products and quotients with it are taken exactly and a
conversion to `uint32_t` truncates; the rounding of `float` arithmetic is not
represented. -/
structure FloatVal where
  num : Nat
  den : Nat
  deriving DecidableEq, Repr

/-- Conversion `(uint32_t)(a * x)` for an unsigned integer `a` and a float `x`. -/
def mul_to_u32 (a : Nat) (x : FloatVal) : Nat := a * x.num / x.den % 2 ^ 32

/-- Source initialiser of `_delete_every_niter`:
`delete_rate == 0.0 ? 0 : 1 / delete_rate`, converted to `uint32_t`. -/
def delete_every_niter (delete_rate : FloatVal) : Nat :=
  if delete_rate.num = 0 then 0 else delete_rate.den / delete_rate.num % 2 ^ 32

/-- Loop variables of `test_hset`, with the indices at which `dkeys` has been
read so far (oldest first). -/
structure LoopState where
  q_idx : Nat
  d_idx : Nat
  should_delete : Nat
  dkeys_reads : List Nat
  deriving DecidableEq, Repr

/-- One iteration of the `for` loop of `test_hset` (lines 193-207); the hash
set itself is not represented, only the index bookkeeping. -/
def test_hset_iter (query_per_insert delete_every_niter : Nat) (s : LoopState) :
    LoopState :=
  let q_temp := (s.q_idx + query_per_insert) % 2 ^ 32
  let q_idx := if s.q_idx < q_temp then q_temp else s.q_idx
  if s.should_delete = delete_every_niter then
    { q_idx := q_idx
      d_idx := (s.d_idx + 1) % 2 ^ 32
      should_delete := (0 + 1) % 2 ^ 32
      dkeys_reads := s.dkeys_reads ++ [s.d_idx] }
  else
    { q_idx := q_idx
      d_idx := s.d_idx
      should_delete := (s.should_delete + 1) % 2 ^ 32
      dkeys_reads := s.dkeys_reads }

/-- The loop of `test_hset` run for `k` iterations from state `s`. -/
def test_hset_loop (query_per_insert delete_every_niter : Nat) :
    Nat → LoopState → LoopState
  | 0, s => s
  | k + 1, s =>
    test_hset_loop query_per_insert delete_every_niter k
      (test_hset_iter query_per_insert delete_every_niter s)

/-- Source `test_hset`: the loop runs `test_size` times from
`q_idx = 0, d_idx = 0, should_delete = 1`. -/
def test_hset (test_size query_per_insert : Nat) (delete_rate : FloatVal) : LoopState :=
  test_hset_loop query_per_insert (delete_every_niter delete_rate) test_size
    { q_idx := 0, d_idx := 0, should_delete := 1, dkeys_reads := [] }

/-- Modelled from the spec: `cmath::roundup<uint32_t>(a, b)` of
`optimized/const_math.h`, which is not among the sources; taken as the least
multiple of `b` that is at least `a`, as a `uint32_t`. -/
def roundup (a b : Nat) : Nat := (a + b - 1) / b * b % 2 ^ 32

/-- Source `true_test_size` of `main`; `cls` is the constant `CACHE_LINE_SIZE`,
whose definition is not among the sources. -/
def true_test_size (cls test_size nthread : Nat) : Nat :=
  roundup (test_size * nthread % 2 ^ 32) (cls * nthread % 2 ^ 32)

/-- Source `true_n_queries` of `main`. -/
def true_n_queries (cls test_size nthread query_per_insert : Nat) : Nat :=
  roundup (test_size * nthread % 2 ^ 32 * query_per_insert % 2 ^ 32)
    (cls * nthread % 2 ^ 32)

/-- Source `true_n_deletes` of `main`. -/
def true_n_deletes (cls test_size nthread : Nat) (delete_rate : FloatVal) : Nat :=
  roundup (mul_to_u32 (test_size * nthread % 2 ^ 32) delete_rate)
    (cls * nthread % 2 ^ 32)

/-- Source `per_thread_tsize` of `main`. -/
def per_thread_tsize (cls test_size nthread : Nat) : Nat :=
  true_test_size cls test_size nthread / nthread

/-- Source `per_thread_qsize` of `main`. -/
def per_thread_qsize (cls test_size nthread query_per_insert : Nat) : Nat :=
  true_n_queries cls test_size nthread query_per_insert / nthread

/-- Source `per_thread_dsize` of `main`. -/
def per_thread_dsize (cls test_size nthread : Nat) (delete_rate : FloatVal) : Nat :=
  true_n_deletes cls test_size nthread delete_rate / nthread

/-- The index expression `rand() % (j % per_thread_tsize)` of the query-key
and delete-key loops of `main`, for the value `rnd` returned by `rand()`;
`none` is the evaluation of a remainder by zero (in either `%`). -/
def key_index (rnd j per_thread_tsize : Nat) : Option Nat :=
  if per_thread_tsize = 0 then none
  else if j % per_thread_tsize = 0 then none
  else some (rnd % (j % per_thread_tsize))

/-- What one iteration of the query-key or delete-key loop of `main` stores:
a key read from `per_thread_ikeys` at an index, a fresh random key, or
nothing because a remainder by zero was evaluated. -/
inductive KeyChoice where
  | from_ikeys (idx : Nat)
  | fresh
  | rem_by_zero
  deriving DecidableEq, Repr

/-- One iteration (lines 328-335, and identically 348-354) of the query-key
and delete-key loops of `main` at loop index `j`; `r1` is the value of the
`rand()` call of the guard and `r2` that of the index expression. -/
def key_loop_iter (insert_success_int_bound per_thread_tsize j r1 r2 : Nat) :
    KeyChoice :=
  if insert_success_int_bound > r1 % 2 ^ 32 then
    match key_index r2 j per_thread_tsize with
    | some idx => KeyChoice.from_ikeys idx
    | none => KeyChoice.rem_by_zero
  else
    KeyChoice.fresh

end hset_test

namespace vmath

/-! ## Lane lemmas -/

theorem lane_lt (w i v : Nat) : lane w i v < 2 ^ w :=
  Nat.mod_lt _ (Nat.two_pow_pos w)

theorem lane_pack (w : Nat) (xs : List Nat) (i : Nat) :
    lane w i (pack w xs) = xs.getD i 0 % 2 ^ w := by
  induction xs generalizing i with
  | nil => simp [pack, lane]
  | cons x xs ih =>
    cases i with
    | zero =>
      simp [pack, lane, Nat.add_mul_mod_self_left]
    | succ j =>
      have hpos : 0 < 2 ^ w := Nat.two_pow_pos w
      have h1 : (x % 2 ^ w + 2 ^ w * pack w xs) / 2 ^ w = pack w xs := by
        rw [Nat.add_mul_div_left _ _ hpos, Nat.div_eq_of_lt (Nat.mod_lt _ hpos), Nat.zero_add]
      have h2 : 2 ^ (w * (j + 1)) = 2 ^ w * 2 ^ (w * j) := by
        rw [Nat.mul_succ, Nat.pow_add, Nat.mul_comm]
      have := ih j
      unfold lane at this ⊢
      simp only [pack, List.getD_cons_succ]
      rw [h2, ← Nat.div_div_eq_div_mul, h1]
      exact this

theorem lane_pack_map (w k : Nat) (f : Nat → Nat) (i : Nat) (hi : i < k) :
    lane w i (pack w ((List.range k).map f)) = f i % 2 ^ w := by
  rw [lane_pack]
  congr 1
  rw [List.getD_eq_getElem?_getD]
  simp [hi]

end vmath

namespace vmath

/-! ## `vadd` / `vsub` -/

theorem lane_add_epi64 (l r i : Nat) (hi : i < 4) :
    lane 64 i (_mm256_add_epi64 l r) = (lane 64 i l + lane 64 i r) % 2 ^ 64 := by
  unfold _mm256_add_epi64
  rw [lane_pack_map 64 4 _ i hi, Nat.mod_mod]

theorem lane_add_epi32 (l r i : Nat) (hi : i < 8) :
    lane 32 i (_mm256_add_epi32 l r) = (lane 32 i l + lane 32 i r) % 2 ^ 32 := by
  unfold _mm256_add_epi32
  rw [lane_pack_map 32 8 _ i hi, Nat.mod_mod]

theorem lane_sub_epi64 (l r i : Nat) (hi : i < 4) :
    lane 64 i (_mm256_sub_epi64 l r) = (lane 64 i l + 2 ^ 64 - lane 64 i r) % 2 ^ 64 := by
  unfold _mm256_sub_epi64
  rw [lane_pack_map 64 4 _ i hi, Nat.mod_mod]

theorem lane_sub_epi32 (l r i : Nat) (hi : i < 8) :
    lane 32 i (_mm256_sub_epi32 l r) = (lane 32 i l + 2 ^ 32 - lane 32 i r) % 2 ^ 32 := by
  unfold _mm256_sub_epi32
  rw [lane_pack_map 32 8 _ i hi, Nat.mod_mod]

/-- Wraparound subtraction written on naturals agrees with the integer
difference reduced modulo `2 ^ w`. -/
theorem wrap_sub_int (w a b : Nat) (hb : b < 2 ^ w) :
    (((a + 2 ^ w - b) % 2 ^ w : Nat) : Int) = ((a : Int) - (b : Int)) % (2 : Int) ^ w := by
  have h1 : ((a + 2 ^ w - b : Nat) : Int) = (a : Int) - (b : Int) + (2 : Int) ^ w := by
    rw [Nat.cast_sub (by omega)]
    push_cast
    ring
  rw [Int.natCast_mod, h1]
  push_cast
  rw [Int.add_emod_self]

/-- C4: `vadd<T>` and `vsub<T>` are lane-wise wraparound arithmetic at the
width of `T`: for `sizeof(T) = 8` each of the 4 lanes is
`(l_i + r_i) mod 2^64` resp. `(l_i - r_i) mod 2^64`, and for a 32-bit `T`
each of the 8 lanes is `(l_j + r_j) mod 2^32` resp. `(l_j - r_j) mod 2^32`;
a lane of the result depends on the same lane of the operands only. -/
theorem vadd_vsub_lanewise_wraparound (l r : Nat) (i : Fin 4) (j : Fin 8) :
    lane 64 i (vadd 8 l r) = (lane 64 i l + lane 64 i r) % 2 ^ 64 ∧
    ((lane 64 i (vsub 8 l r) : Nat) : Int)
      = ((lane 64 i l : Int) - (lane 64 i r : Int)) % (2 : Int) ^ 64 ∧
    lane 32 j (vadd 4 l r) = (lane 32 j l + lane 32 j r) % 2 ^ 32 ∧
    ((lane 32 j (vsub 4 l r) : Nat) : Int)
      = ((lane 32 j l : Int) - (lane 32 j r : Int)) % (2 : Int) ^ 32 := by
  refine ⟨?_, ?_, ?_, ?_⟩
  · simp only [vadd, if_true]
    exact lane_add_epi64 l r i i.isLt
  · simp only [vsub, if_true]
    rw [lane_sub_epi64 l r i i.isLt]
    exact wrap_sub_int 64 _ _ (lane_lt 64 i r)
  · have h : ¬ (4 = 8) := by decide
    simp only [vadd, h, if_false]
    exact lane_add_epi32 l r j j.isLt
  · have h : ¬ (4 = 8) := by decide
    simp only [vsub, h, if_false]
    rw [lane_sub_epi32 l r j j.isLt]
    exact wrap_sub_int 32 _ _ (lane_lt 32 j r)

/-! ## `vadd_c` / `vsub_c` -/

theorem lane32_even (k v : Nat) : lane 32 (2 * k) v = lane 64 k v % 2 ^ 32 := by
  unfold lane
  have h : 32 * (2 * k) = 64 * k := by ring
  rw [h]
  generalize v / 2 ^ (64 * k) = x
  omega

theorem lane32_odd (k v : Nat) : lane 32 (2 * k + 1) v = lane 64 k v / 2 ^ 32 := by
  unfold lane
  have h : 2 ^ (32 * (2 * k + 1)) = 2 ^ (64 * k) * 2 ^ 32 := by
    rw [← Nat.pow_add]
    congr 1
    ring
  rw [h, ← Nat.div_div_eq_div_mul]
  generalize v / 2 ^ (64 * k) = x
  omega

theorem lane64_set1 (a k : Nat) (hk : k < 4) :
    lane 64 k (_mm256_set1_epi64x a) = a % 2 ^ 64 := by
  unfold _mm256_set1_epi64x
  rw [lane_pack]
  have h : k = 0 ∨ k = 1 ∨ k = 2 ∨ k = 3 := by omega
  rcases h with h | h | h | h <;> subst h <;> rfl

/-- With a 64-bit `T` the constant reaches every lane of `vadd_c` and
`vsub_c`. -/
theorem vadd_c_vsub_c_u64 (l r : Nat) (hr : r < 2 ^ 64) (i : Nat) (hi : i < 4) :
    lane 64 i (vadd_c 8 l r) = (lane 64 i l + r) % 2 ^ 64 ∧
    lane 64 i (vsub_c 8 l r) = (lane 64 i l + 2 ^ 64 - r) % 2 ^ 64 := by
  have hs : lane 64 i (_mm256_set1_epi64x r) = r := by
    rw [lane64_set1 r i hi, Nat.mod_eq_of_lt hr]
  constructor
  · simp only [vadd_c, vadd, if_true]
    rw [lane_add_epi64 l _ i hi, hs]
  · simp only [vsub_c, vsub, if_true]
    rw [lane_sub_epi64 l _ i hi, hs]

/-- With a 32-bit `T` the register built by `_mm256_set1_epi64x` holds the
constant in the even 32-bit lanes and zero in the odd ones, so `vadd_c` and
`vsub_c` transform the even lanes and return the odd lanes as they were. -/
theorem vadd_c_vsub_c_u32 (l r : Nat) (hr : r < 2 ^ 32) (k : Nat) (hk : k < 4) :
    lane 32 (2 * k) (vadd_c 4 l r) = (lane 32 (2 * k) l + r) % 2 ^ 32 ∧
    lane 32 (2 * k) (vsub_c 4 l r) = (lane 32 (2 * k) l + 2 ^ 32 - r) % 2 ^ 32 ∧
    lane 32 (2 * k + 1) (vadd_c 4 l r) = lane 32 (2 * k + 1) l ∧
    lane 32 (2 * k + 1) (vsub_c 4 l r) = lane 32 (2 * k + 1) l := by
  have h48 : ¬ (4 = 8) := by decide
  have he : lane 32 (2 * k) (_mm256_set1_epi64x r) = r := by
    rw [lane32_even, lane64_set1 r k hk]
    omega
  have ho : lane 32 (2 * k + 1) (_mm256_set1_epi64x r) = 0 := by
    rw [lane32_odd, lane64_set1 r k hk]
    omega
  have hl := lane_lt 32 (2 * k + 1) l
  refine ⟨?_, ?_, ?_, ?_⟩
  · simp only [vadd_c, vadd, h48, if_false]
    rw [lane_add_epi32 l _ _ (by omega), he]
  · simp only [vsub_c, vsub, h48, if_false]
    rw [lane_sub_epi32 l _ _ (by omega), he]
  · simp only [vadd_c, vadd, h48, if_false]
    rw [lane_add_epi32 l _ _ (by omega), ho]
    omega
  · simp only [vsub_c, vsub, h48, if_false]
    rw [lane_sub_epi32 l _ _ (by omega), ho]
    omega

/-- C3 (evaluation at the failing input `T = uint32_t`, `l = 0`, `r = 1`):
`vadd_c<uint32_t>` and `vsub_c<uint32_t>` leave the odd 32-bit lanes
untouched, so lane 1 of the sum is `0` where `(l_1 + r) mod 2^32` is `1`, and
lane 1 of the difference is `0` where `(l_1 - r) mod 2^32` is `2^32 - 1`. -/
theorem vadd_c_u32_misses_odd_lanes :
    lanes 32 8 (vadd_c 4 0 1) = [1, 0, 1, 0, 1, 0, 1, 0] ∧
    lanes 32 8 (vsub_c 4 0 1)
      = [4294967295, 0, 4294967295, 0, 4294967295, 0, 4294967295, 0] ∧
    lane 32 1 (vadd_c 4 0 1) ≠ (lane 32 1 0 + 1) % 2 ^ 32 ∧
    lane 32 1 (vsub_c 4 0 1) ≠ (lane 32 1 0 + 2 ^ 32 - 1) % 2 ^ 32 := by
  decide

/-! ## `vdiv` -/

/-- C7: for `sizeof(T)` 4 or 8 (lane width `w = 8 * sizeof(T)`), a divisor
`k > 0` and any register `n`, every lane of `vdiv<T, k>(n)` is the truncating
quotient of the same lane of `n` by `k`; in particular a lane holding `0` or
`k - 1` gives `0`, a lane holding `k` gives `1`, and a lane holding
`2^w - 1` gives `(2^w - 1) / k`. -/
theorem vdiv_lane_eq_div (sizeofT k n i : Nat) (hT : sizeofT = 4 ∨ sizeofT = 8)
    (hk : 0 < k) (hi : i < 32 / sizeofT) :
    lane (8 * sizeofT) i (vdiv sizeofT k n) = lane (8 * sizeofT) i n / k ∧
    (lane (8 * sizeofT) i n = 0 → lane (8 * sizeofT) i (vdiv sizeofT k n) = 0) ∧
    (lane (8 * sizeofT) i n = k - 1 → lane (8 * sizeofT) i (vdiv sizeofT k n) = 0) ∧
    (lane (8 * sizeofT) i n = k → lane (8 * sizeofT) i (vdiv sizeofT k n) = 1) ∧
    (lane (8 * sizeofT) i n = 2 ^ (8 * sizeofT) - 1 →
      lane (8 * sizeofT) i (vdiv sizeofT k n) = (2 ^ (8 * sizeofT) - 1) / k) := by
  have main : lane (8 * sizeofT) i (vdiv sizeofT k n) = lane (8 * sizeofT) i n / k := by
    unfold vdiv do_div_vector
    rw [lane_pack_map (8 * sizeofT) (32 / sizeofT) _ i hi]
    apply Nat.mod_eq_of_lt
    exact Nat.lt_of_le_of_lt (Nat.div_le_self _ _) (lane_lt _ _ _)
  refine ⟨main, ?_, ?_, ?_, ?_⟩
  · intro h
    rw [main, h, Nat.zero_div]
  · intro h
    rw [main, h]
    exact Nat.div_eq_of_lt (by omega)
  · intro h
    rw [main, h]
    exact Nat.div_self hk
  · intro h
    rw [main, h]

/-- Witness for `vdiv_lane_eq_div`: `uint32_t`, divisor 3, lane 1 of the
register whose low lanes hold `7` and `10`. -/
theorem vdiv_lane_eq_div_witness :
    ((4 = 4 ∨ 4 = 8) ∧ 0 < 3 ∧ 1 < 32 / 4) ∧
    lane (8 * 4) 1 (vdiv 4 3 (7 + 2 ^ 32 * 10)) = lane (8 * 4) 1 (7 + 2 ^ 32 * 10) / 3 :=
  ⟨⟨Or.inl rfl, by decide, by decide⟩,
   (vdiv_lane_eq_div 4 3 (7 + 2 ^ 32 * 10) 1 (Or.inl rfl) (by decide) (by decide)).1⟩

end vmath

namespace hset_test

variable {M H : Type}

/-! ## Calls made by the adaptors -/

theorem calls_made_append (w w2 : World M H) (cs : List Call)
    (h : w2.trace = w.trace ++ cs) : calls_made w w2 = cs := by
  unfold calls_made
  rw [h]
  simp

/-! ## `slab_allocator::deallocate` -/

/-- The routing done by `slab_allocator::deallocate`: the pointer goes to the
manager when it is strictly above the first address of the root storage and
below its end, and to `free` otherwise. -/
theorem slab_deallocate_routing (E : Env M H) (sizeofT p n : Nat) (w : World M H) :
    calls_made w (slab_allocator.deallocate E sizeofT p n w)
      = if E.m < p ∧ p < E.m + E.sizeof_root then
          [Call.get_cycles, Call._free p, Call.get_cycles]
        else
          [Call.get_cycles, Call.free p, Call.get_cycles] := by
  apply calls_made_append
  unfold slab_allocator.deallocate
  by_cases h : p > E.m ∧ p < E.m + E.sizeof_root
  · have h2 : E.m < p ∧ p < E.m + E.sizeof_root := h
    simp [h, h2, add_free_time, get_cycles, call_free_slab]
  · have h2 : ¬ (E.m < p ∧ p < E.m + E.sizeof_root) := h
    simp [h, h2, add_free_time, get_cycles, call_free]

/-- C1 (evaluation at the failing input `p = (uint64_t)my_allocator->m`): for
every environment, state and count, `slab_allocator::deallocate` hands the
first address of the root storage to the fallback `free` and not to the
manager, whose state stays as it was, although that address lies in
`[m, m + 1)` whenever the root storage is not empty. -/
theorem slab_deallocate_first_address_to_free (E : Env M H) (sizeofT n : Nat)
    (w : World M H) :
    calls_made w (slab_allocator.deallocate E sizeofT E.m n w)
      = [Call.get_cycles, Call.free E.m, Call.get_cycles] ∧
    Call._free E.m ∉ calls_made w (slab_allocator.deallocate E sizeofT E.m n w) ∧
    (slab_allocator.deallocate E sizeofT E.m n w).manager = w.manager ∧
    (slab_allocator.deallocate E sizeofT E.m n w).heap = E.free E.m w.heap ∧
    (0 < E.sizeof_root → E.m ≤ E.m ∧ E.m < E.m + E.sizeof_root) := by
  refine ⟨?_, ?_, ?_, ?_, ?_⟩
  · rw [slab_deallocate_routing]
    simp
  · rw [slab_deallocate_routing]
    simp
  · simp [slab_allocator.deallocate, add_free_time, get_cycles, call_free]
  · simp [slab_allocator.deallocate, add_free_time, get_cycles, call_free]
  · intro h
    omega

/-- C2: for a pointer outside `[m, m + 1)` and any count,
`slab_allocator::deallocate` makes no `_free` call, leaves the manager state
unchanged, and passes the pointer exactly once to the fallback `free`. -/
theorem slab_deallocate_foreign (E : Env M H) (sizeofT p n : Nat) (w : World M H)
    (hp : p < E.m ∨ E.m + E.sizeof_root ≤ p) :
    (slab_allocator.deallocate E sizeofT p n w).manager = w.manager ∧
    (∀ q, Call._free q ∉ calls_made w (slab_allocator.deallocate E sizeofT p n w)) ∧
    (calls_made w (slab_allocator.deallocate E sizeofT p n w)).count (Call.free p) = 1 ∧
    (slab_allocator.deallocate E sizeofT p n w).heap = E.free p w.heap := by
  have hn : ¬ (E.m < p ∧ p < E.m + E.sizeof_root) := by omega
  have hn2 : ¬ (p > E.m ∧ p < E.m + E.sizeof_root) := hn
  refine ⟨?_, ?_, ?_, ?_⟩
  · simp [slab_allocator.deallocate, hn2, add_free_time, get_cycles, call_free]
  · intro q
    rw [slab_deallocate_routing, if_neg hn]
    simp
  · rw [slab_deallocate_routing, if_neg hn]
    simp
  · simp [slab_allocator.deallocate, hn2, add_free_time, get_cycles, call_free]

/-- Witness for `slab_deallocate_foreign`: the heap pointer 65536 with the
root storage at `[4096, 4160)`. -/
theorem slab_deallocate_foreign_witness :
    (65536 < sampleEnv.m ∨ sampleEnv.m + sampleEnv.sizeof_root ≤ 65536) ∧
    (slab_allocator.deallocate sampleEnv 8 65536 1 (sampleWorld [4104])).manager
      = (sampleWorld [4104]).manager ∧
    (∀ q, Call._free q ∉ calls_made (sampleWorld [4104])
      (slab_allocator.deallocate sampleEnv 8 65536 1 (sampleWorld [4104]))) ∧
    (calls_made (sampleWorld [4104])
      (slab_allocator.deallocate sampleEnv 8 65536 1 (sampleWorld [4104]))).count
        (Call.free 65536) = 1 ∧
    (slab_allocator.deallocate sampleEnv 8 65536 1 (sampleWorld [4104])).heap
      = sampleEnv.free 65536 (sampleWorld [4104]).heap :=
  ⟨Or.inr (by decide),
   slab_deallocate_foreign sampleEnv 8 65536 1 (sampleWorld [4104]) (Or.inr (by decide))⟩

end hset_test

namespace hset_test

variable {M H : Type}

/-! ## `slab_allocator::allocate` -/

/-- C5: `slab_allocator::allocate(1)` returns the pointer of `_allocate` when
it is not `NULL`, and then calls no `malloc` and leaves the heap alone; when
`_allocate` returns `NULL` it returns the result of `malloc(8)`, so it is not
`NULL` whenever that fallback `malloc` succeeds. -/
theorem slab_allocate_one (E : Env M H) (sizeofT : Nat) (w : World M H) :
    ((E._allocate w.manager).1 ≠ 0 →
      (slab_allocator.allocate E sizeofT 1 w).1 = (E._allocate w.manager).1 ∧
      calls_made w (slab_allocator.allocate E sizeofT 1 w).2
        = [Call.get_cycles, Call._allocate, Call.get_cycles] ∧
      (slab_allocator.allocate E sizeofT 1 w).2.heap = w.heap) ∧
    ((E._allocate w.manager).1 = 0 →
      (slab_allocator.allocate E sizeofT 1 w).1 = (E.malloc 8 w.heap).1 ∧
      calls_made w (slab_allocator.allocate E sizeofT 1 w).2
        = [Call.get_cycles, Call._allocate, Call.malloc 8, Call.get_cycles]) ∧
    ((E._allocate w.manager).1 = 0 → (E.malloc 8 w.heap).1 ≠ 0 →
      (slab_allocator.allocate E sizeofT 1 w).1 ≠ 0) := by
  have hnull : (E._allocate w.manager).1 = 0 →
      (slab_allocator.allocate E sizeofT 1 w).1 = (E.malloc 8 w.heap).1 := by
    intro h
    simp [slab_allocator.allocate, slab_allocator.allocate_malloc, call_allocate,
      call_malloc, get_cycles, h]
  refine ⟨?_, ?_, ?_⟩
  · intro h
    refine ⟨?_, ?_, ?_⟩
    · simp [slab_allocator.allocate, call_allocate, get_cycles, h]
    · apply calls_made_append
      simp [slab_allocator.allocate, call_allocate, get_cycles, add_alloc_time, h]
    · simp [slab_allocator.allocate, call_allocate, get_cycles, add_alloc_time, h]
  · intro h
    refine ⟨hnull h, ?_⟩
    apply calls_made_append
    simp [slab_allocator.allocate, slab_allocator.allocate_malloc, call_allocate,
      call_malloc, get_cycles, add_alloc_time, h]
  · intro h hm
    rw [hnull h]
    exact hm

/-- Witness for `slab_allocate_one`: with the free slot 4104 the call returns
4104, and with no free slot it returns the heap pointer 65536. -/
theorem slab_allocate_one_witness :
    (slab_allocator.allocate sampleEnv 8 1 (sampleWorld [4104])).1 = 4104 ∧
    (slab_allocator.allocate sampleEnv 8 1 (sampleWorld [])).1 = 65536 :=
  ⟨((slab_allocate_one sampleEnv 8 (sampleWorld [4104])).1 (by decide)).1,
   ((slab_allocate_one sampleEnv 8 (sampleWorld [])).2.1 rfl).1⟩

/-- C6: for a count `n != 1` (`n = 0` included) `slab_allocator::allocate(n)`
makes no `_allocate` call, leaves the manager state unchanged, and returns
the result of the fallback `malloc`. -/
theorem slab_allocate_not_one (E : Env M H) (sizeofT n : Nat) (w : World M H)
    (hn : n ≠ 1) :
    (slab_allocator.allocate E sizeofT n w).1 = (E.malloc (n * 8 % 2 ^ 64) w.heap).1 ∧
    (slab_allocator.allocate E sizeofT n w).2.manager = w.manager ∧
    Call._allocate ∉ calls_made w (slab_allocator.allocate E sizeofT n w).2 ∧
    calls_made w (slab_allocator.allocate E sizeofT n w).2
      = [Call.get_cycles, Call.malloc (n * 8 % 2 ^ 64), Call.get_cycles] := by
  have hc : calls_made w (slab_allocator.allocate E sizeofT n w).2
      = [Call.get_cycles, Call.malloc (n * 8 % 2 ^ 64), Call.get_cycles] := by
    apply calls_made_append
    simp [slab_allocator.allocate, slab_allocator.allocate_malloc, call_malloc,
      get_cycles, add_alloc_time, hn]
  refine ⟨?_, ?_, ?_, hc⟩
  · simp [slab_allocator.allocate, slab_allocator.allocate_malloc, call_malloc,
      get_cycles, hn]
  · simp [slab_allocator.allocate, slab_allocator.allocate_malloc, call_malloc,
      get_cycles, add_alloc_time, hn]
  · rw [hc]
    simp

/-- Witness for `slab_allocate_not_one`: the count 0 with a free slot
available. -/
theorem slab_allocate_not_one_witness :
    (0 : Nat) ≠ 1 ∧
    (slab_allocator.allocate sampleEnv 8 0 (sampleWorld [4104])).1
      = (sampleEnv.malloc (0 * 8 % 2 ^ 64) (sampleWorld [4104]).heap).1 ∧
    (slab_allocator.allocate sampleEnv 8 0 (sampleWorld [4104])).2.manager
      = (sampleWorld [4104]).manager ∧
    Call._allocate ∉ calls_made (sampleWorld [4104])
      (slab_allocator.allocate sampleEnv 8 0 (sampleWorld [4104])).2 ∧
    calls_made (sampleWorld [4104])
      (slab_allocator.allocate sampleEnv 8 0 (sampleWorld [4104])).2
      = [Call.get_cycles, Call.malloc (0 * 8 % 2 ^ 64), Call.get_cycles] :=
  ⟨by decide, slab_allocate_not_one sampleEnv 8 0 (sampleWorld [4104]) (by decide)⟩

/-! ## Size of the fallback request -/

theorem malloc_allocate_calls (E : Env M H) (sizeofT n : Nat) (w : World M H) :
    calls_made w (malloc_allocator.allocate E sizeofT n w).2
      = [Call.get_cycles, Call.malloc (n * 8 % 2 ^ 64), Call.get_cycles] := by
  apply calls_made_append
  simp [malloc_allocator.allocate, call_malloc, get_cycles, add_alloc_time]

theorem metrics_allocate_calls (E : Env M H) (sizeofT n : Nat) (w : World M H) :
    calls_made w (metrics_allocator.allocate E sizeofT n w).2
      = [Call.malloc (n * 8 % 2 ^ 64)] := by
  apply calls_made_append
  unfold metrics_allocator.allocate
  by_cases h : n < msize <;> simp [call_malloc, h]

theorem slab_allocate_calls (E : Env M H) (sizeofT n : Nat) (w : World M H) :
    calls_made w (slab_allocator.allocate E sizeofT n w).2
      = if n = 1 then
          if (E._allocate w.manager).1 ≠ 0 then
            [Call.get_cycles, Call._allocate, Call.get_cycles]
          else
            [Call.get_cycles, Call._allocate, Call.malloc (n * 8 % 2 ^ 64), Call.get_cycles]
        else
          [Call.get_cycles, Call.malloc (n * 8 % 2 ^ 64), Call.get_cycles] := by
  apply calls_made_append
  by_cases hn : n = 1
  · by_cases ha : (E._allocate w.manager).1 = 0
    · simp [slab_allocator.allocate, slab_allocator.allocate_malloc, call_allocate,
        call_malloc, get_cycles, add_alloc_time, hn, ha]
    · simp [slab_allocator.allocate, call_allocate, get_cycles, add_alloc_time, hn, ha]
  · simp [slab_allocator.allocate, slab_allocator.allocate_malloc, call_malloc,
      get_cycles, add_alloc_time, hn]

theorem slab_allocate_malloc_bytes (E : Env M H) (sizeofT n : Nat) (w : World M H)
    (bytes : Nat)
    (hb : Call.malloc bytes ∈ calls_made w (slab_allocator.allocate E sizeofT n w).2) :
    bytes = n * 8 % 2 ^ 64 := by
  rw [slab_allocate_calls] at hb
  by_cases hn : n = 1
  · by_cases ha : (E._allocate w.manager).1 = 0
    · simpa [hn, ha] using hb
    · simp [hn, ha] at hb
  · simpa [hn] using hb

/-- C10: whatever `sizeof(T)` is, `malloc_allocator<T>::allocate(n)` and
`metrics_allocator<T>::allocate(n)` request `n * 8 mod 2^64` bytes, and so does
every `malloc` call of `slab_allocator<T>::allocate(n)`; hence for
`sizeof(T) > 8`, `n >= 1` and `n * sizeof(T) < 2^64` each requested block is
strictly smaller than the `n * sizeof(T)` bytes of `n` objects. -/
theorem fallback_request_is_n_times_8 (E : Env M H) (sizeofT n : Nat) (w : World M H) :
    calls_made w (malloc_allocator.allocate E sizeofT n w).2
      = [Call.get_cycles, Call.malloc (n * 8 % 2 ^ 64), Call.get_cycles] ∧
    calls_made w (metrics_allocator.allocate E sizeofT n w).2
      = [Call.malloc (n * 8 % 2 ^ 64)] ∧
    (∀ bytes, Call.malloc bytes ∈ calls_made w (slab_allocator.allocate E sizeofT n w).2 →
      bytes = n * 8 % 2 ^ 64) ∧
    (8 < sizeofT → 1 ≤ n → n * sizeofT < 2 ^ 64 →
      ∀ bytes,
        (Call.malloc bytes ∈ calls_made w (malloc_allocator.allocate E sizeofT n w).2 ∨
         Call.malloc bytes ∈ calls_made w (metrics_allocator.allocate E sizeofT n w).2 ∨
         Call.malloc bytes ∈ calls_made w (slab_allocator.allocate E sizeofT n w).2) →
        bytes < n * sizeofT) := by
  refine ⟨malloc_allocate_calls E sizeofT n w, metrics_allocate_calls E sizeofT n w,
    slab_allocate_malloc_bytes E sizeofT n w, ?_⟩
  intro hT hn hlt bytes hb
  have hbytes : bytes = n * 8 % 2 ^ 64 := by
    rcases hb with hb | hb | hb
    · rw [malloc_allocate_calls] at hb
      simpa using hb
    · rw [metrics_allocate_calls] at hb
      simpa using hb
    · exact slab_allocate_malloc_bytes E sizeofT n w bytes hb
  have h1 : n * 8 % 2 ^ 64 ≤ n * 8 := Nat.mod_le _ _
  have h2 : n * 8 < n * sizeofT := Nat.mul_lt_mul_of_pos_left hT (by omega)
  omega

/-- Witness for `fallback_request_is_n_times_8`: three objects of a 16-byte
type get a 24-byte block from `malloc_allocator`, 48 bytes being needed. -/
theorem fallback_request_is_n_times_8_witness :
    calls_made (sampleWorld []) (malloc_allocator.allocate sampleEnv 16 3 (sampleWorld [])).2
      = [Call.get_cycles, Call.malloc 24, Call.get_cycles] ∧
    (24 : Nat) < 3 * 16 :=
  ⟨(fallback_request_is_n_times_8 sampleEnv 16 3 (sampleWorld [])).1,
   (fallback_request_is_n_times_8 sampleEnv 16 3 (sampleWorld [])).2.2.2
     (by decide) (by decide) (by decide) 24
     (Or.inl (by rw [malloc_allocate_calls]; decide))⟩

end hset_test

namespace hset_test

/-! ## The erase count of `test_hset` -/

/-- Running the loop from a state whose counter is within `[1, niter]`: the
number of erases issued in `k` iterations is `(should_delete - 1 + k) / niter`
and the indices read from `dkeys` are consecutive. -/
theorem test_hset_loop_erases (qpi niter : Nat) (h1 : 1 ≤ niter) (h32 : niter < 2 ^ 32) :
    ∀ (k : Nat) (s : LoopState), 1 ≤ s.should_delete → s.should_delete ≤ niter →
      s.d_idx + k < 2 ^ 32 →
      (test_hset_loop qpi niter k s).d_idx
        = s.d_idx + (s.should_delete - 1 + k) / niter ∧
      (test_hset_loop qpi niter k s).dkeys_reads
        = s.dkeys_reads ++ List.range' s.d_idx ((s.should_delete - 1 + k) / niter) := by
  intro k
  induction k with
  | zero =>
    intro s hs1 hs2 _
    have hz : (s.should_delete - 1 + 0) / niter = 0 := Nat.div_eq_of_lt (by omega)
    rw [hz]
    simp [test_hset_loop]
  | succ k ih =>
    intro s hs1 hs2 hd
    by_cases hsd : s.should_delete = niter
    · have hq : (s.should_delete - 1 + (k + 1)) / niter = k / niter + 1 := by
        have : s.should_delete - 1 + (k + 1) = niter + k := by omega
        rw [this, Nat.add_div_left _ (by omega)]
      have hstep := ih (test_hset_iter qpi niter s)
        (by simp [test_hset_iter, hsd]) (by simp [test_hset_iter, hsd]; omega)
        (by
          simp only [test_hset_iter, hsd, if_true]
          have : (s.d_idx + 1) % 2 ^ 32 = s.d_idx + 1 := Nat.mod_eq_of_lt (by omega)
          omega)
      have hd1 : (s.d_idx + 1) % 2 ^ 32 = s.d_idx + 1 := Nat.mod_eq_of_lt (by omega)
      simp only [test_hset_loop]
      rw [hstep.1, hstep.2, hq]
      simp only [test_hset_iter, hsd, if_true, hd1]
      have h0 : (0 + 1) % 2 ^ 32 - 1 + k = k := by norm_num
      rw [h0]
      constructor
      · omega
      · rw [List.append_assoc, List.range'_succ]
        rfl
    · have hlt : s.should_delete < niter := by omega
      have hm : (s.should_delete + 1) % 2 ^ 32 = s.should_delete + 1 :=
        Nat.mod_eq_of_lt (by omega)
      have hstep := ih (test_hset_iter qpi niter s)
        (by simp only [test_hset_iter, hsd, if_false, hm]; omega)
        (by simp only [test_hset_iter, hsd, if_false, hm]; omega)
        (by simp only [test_hset_iter, hsd, if_false]; omega)
      simp only [test_hset_loop]
      rw [hstep.1, hstep.2]
      simp only [test_hset_iter, hsd, if_false, hm]
      have : s.should_delete + 1 - 1 + k = s.should_delete - 1 + (k + 1) := by omega
      rw [this]
      exact ⟨rfl, rfl⟩

/-- With a non-zero `_delete_every_niter` the worker issues
`test_size / _delete_every_niter` erases, reading `dkeys` at the indices
`0, 1, ..., test_size / _delete_every_niter - 1`. -/
theorem test_hset_erase_count (test_size qpi : Nat) (delete_rate : FloatVal)
    (hts : test_size < 2 ^ 32) (h0 : 1 ≤ delete_every_niter delete_rate) :
    (test_hset test_size qpi delete_rate).d_idx
      = test_size / delete_every_niter delete_rate ∧
    (test_hset test_size qpi delete_rate).dkeys_reads
      = List.range' 0 (test_size / delete_every_niter delete_rate) := by
  have h32 : delete_every_niter delete_rate < 2 ^ 32 := by
    unfold delete_every_niter
    split
    · norm_num
    · exact Nat.mod_lt _ (by norm_num)
  have h := test_hset_loop_erases qpi (delete_every_niter delete_rate) h0 h32 test_size
    { q_idx := 0, d_idx := 0, should_delete := 1, dkeys_reads := [] }
    (by simp) h0 (by simpa using hts)
  simpa [test_hset] using h

/-- Running the loop with `_delete_every_niter = 0`: the counter starts at
one and cannot come back to zero before the last of fewer than `2^32`
iterations, so no erase is issued. -/
theorem test_hset_loop_no_erase (qpi : Nat) :
    ∀ (k : Nat) (s : LoopState), 1 ≤ s.should_delete → s.should_delete + k ≤ 2 ^ 32 →
      (test_hset_loop qpi 0 k s).dkeys_reads = s.dkeys_reads ∧
      (test_hset_loop qpi 0 k s).d_idx = s.d_idx := by
  intro k
  induction k with
  | zero =>
    intro s _ _
    simp [test_hset_loop]
  | succ k ih =>
    intro s hs1 hs2
    have hne : s.should_delete ≠ 0 := by omega
    simp only [test_hset_loop]
    cases k with
    | zero => simp [test_hset_loop, test_hset_iter, hne]
    | succ k =>
      have hm : (s.should_delete + 1) % 2 ^ 32 = s.should_delete + 1 :=
        Nat.mod_eq_of_lt (by omega)
      have hstep := ih (test_hset_iter qpi 0 s)
        (by simp only [test_hset_iter, hne, if_false, hm]; omega)
        (by simp only [test_hset_iter, hne, if_false, hm]; omega)
      rw [hstep.1, hstep.2]
      simp [test_hset_iter, hne]

/-- When `delete_rate` is zero the worker issues no erase at all. -/
theorem test_hset_rate_zero (test_size qpi den : Nat) (hts : test_size < 2 ^ 32) :
    (test_hset test_size qpi { num := 0, den := den }).dkeys_reads = [] ∧
    (test_hset test_size qpi { num := 0, den := den }).d_idx = 0 := by
  have hk : (1 : Nat) + test_size ≤ 2 ^ 32 := by omega
  have h := test_hset_loop_no_erase qpi test_size
    { q_idx := 0, d_idx := 0, should_delete := 1, dkeys_reads := [] }
    (Nat.le_refl 1) hk
  simpa [test_hset, delete_every_niter] using h

end hset_test

namespace hset_test

/-- C8 (evaluation at the failing input `delete_rate = 0.75`, the default
`test_size = 2^20`, `nthread = 1`, `CACHE_LINE_SIZE = 64`): the worker erases
on every iteration (`_delete_every_niter = 1`), so it reads `dkeys` at all
indices below `1048576`, among them `786432`, while only
`per_thread_dsize = 786432` delete keys exist for the thread. -/
theorem test_hset_reads_past_dkeys :
    delete_every_niter { num := 3, den := 4 } = 1 ∧
    per_thread_dsize 64 (2 ^ 20) 1 { num := 3, den := 4 } = 786432 ∧
    (test_hset (2 ^ 20) 0 { num := 3, den := 4 }).d_idx = 1048576 ∧
    786432 ∈ (test_hset (2 ^ 20) 0 { num := 3, den := 4 }).dkeys_reads ∧
    ¬ (786432 < per_thread_dsize 64 (2 ^ 20) 1 { num := 3, den := 4 }) := by
  have hn : delete_every_niter { num := 3, den := 4 } = 1 := by decide
  have hd : per_thread_dsize 64 (2 ^ 20) 1 { num := 3, den := 4 } = 786432 := by decide
  have h := test_hset_erase_count (2 ^ 20) 0 { num := 3, den := 4 } (by norm_num)
    (by rw [hn])
  rw [hn] at h
  refine ⟨hn, hd, ?_, ?_, ?_⟩
  · rw [h.1]
    norm_num
  · rw [h.2, List.mem_range']
    exact ⟨786432, by norm_num, by norm_num⟩
  · rw [hd]
    exact Nat.lt_irrefl _

/-! ## The key index of the query-key and delete-key loops -/

/-- While `j` stays below `per_thread_tsize` the divisor is `j` itself: the
remainder is defined and the index is below `j`. -/
theorem key_index_of_lt (rnd j tsize : Nat) (h1 : 1 ≤ j) (hj : j < tsize) :
    key_index rnd j tsize = some (rnd % j) ∧ rnd % j < tsize := by
  have hm : j % tsize = j := Nat.mod_eq_of_lt hj
  have hne : ¬ (j = 0) := by omega
  have ht : ¬ (tsize = 0) := by omega
  constructor
  · simp [key_index, hm, hne, ht]
  · exact Nat.lt_trans (Nat.mod_lt _ (by omega)) hj

/-- Whenever both divisors are non-zero the index is below
`per_thread_tsize`. -/
theorem key_index_lt (rnd j tsize idx : Nat) (h : key_index rnd j tsize = some idx) :
    idx < tsize := by
  unfold key_index at h
  by_cases ht : tsize = 0
  · simp [ht] at h
  · by_cases h0 : j % tsize = 0
    · simp [ht, h0] at h
    · simp only [ht, h0, if_false, Option.some.injEq] at h
      have h2 : rnd % (j % tsize) < j % tsize := Nat.mod_lt _ (by omega)
      have h3 : j % tsize < tsize := Nat.mod_lt _ (by omega)
      omega

/-- C9 (evaluation at the failing input `test_size = 64`, `nthread = 1`,
`query_per_insert = 2`, `CACHE_LINE_SIZE = 64`): `per_thread_tsize` is 64 and
`per_thread_qsize` is 128, so the query-key loop reaches `j = 64`, where the
divisor `j % per_thread_tsize` is zero: whenever the guard
`insert_success_int_bound > (uint32_t)rand()` holds, `rand() % 0` is
evaluated whatever `rand()` returned. -/
theorem query_key_index_divides_by_zero :
    per_thread_tsize 64 64 1 = 64 ∧
    per_thread_qsize 64 64 1 2 = 128 ∧
    (1 ≤ 64 ∧ 64 < per_thread_qsize 64 64 1 2) ∧
    64 % per_thread_tsize 64 64 1 = 0 ∧
    (∀ rnd, key_index rnd 64 (per_thread_tsize 64 64 1) = none) ∧
    (∀ bound r1 r2, r1 % 2 ^ 32 < bound →
      key_loop_iter bound (per_thread_tsize 64 64 1) 64 r1 r2 = KeyChoice.rem_by_zero) := by
  have ht : per_thread_tsize 64 64 1 = 64 := by decide
  have hq : per_thread_qsize 64 64 1 2 = 128 := by decide
  have hk : ∀ rnd, key_index rnd 64 64 = none := by
    intro rnd
    simp [key_index]
  refine ⟨ht, hq, ?_, ?_, ?_, ?_⟩
  · rw [hq]
    exact ⟨by decide, by decide⟩
  · rw [ht]
  · intro rnd
    rw [ht]
    exact hk rnd
  · intro bound r1 r2 hb
    have hg : bound > r1 % 2 ^ 32 := hb
    rw [ht]
    simp only [key_loop_iter, hg, if_true, hk r2]

end hset_test
